import Mathlib

/-!
Shallow embedding of `src/application.py` from the NotionGoogleChatAPI
repository, together with proofs about its aggregation and traversal core:
the paginated collectors (`read_events`, `query_notion_database`), the block
tree flattener (`retrieve_all_blocks`) and the text extractor
(`extract_text_from_blocks`), plus the request-validation and event-editing
route handlers.

Modelling conventions:
* Python dictionaries returned by the upstream APIs are modelled as
  structures holding the fields the code reads; `dict.get(key)` on a key
  that may be missing becomes an `Option` field.
* Python truthiness tests (`if not page_token`, `if not has_more`,
  `not all([...])`) are modelled by explicit truthiness functions on
  `Option String` / `Option Bool`: `None` and the empty string are falsy.
* Network calls are modelled as explicit provider functions passed as
  parameters; a fallible call returns `Except String`, matching the code
  catching an exception `e` and using `str(e)`.
* The unbounded `while True` loops are modelled with an explicit fuel
  parameter; a result of `none` means the loop did not terminate within the
  given fuel, and `none` for every fuel means the loop does not terminate.
* The Python work list of `retrieve_all_blocks` uses `list.append` to push
  and `list.pop()` to pop, i.e. a stack whose top is the last element.  The
  Lean model keeps the stack top at the head of the list, so pushing the
  ids `i1, ..., ik` in order corresponds to prepending their reversal.
-/

/-- A rich text span as read by the extractor: the code only ever reads
`element.get("plain_text", "")`, so only that field is modelled. -/
structure RichTextSpan where
  plain_text : String
deriving DecidableEq, Repr

/-- A content block record as returned by the Notion blocks.children.list
endpoint, restricted to the fields `application.py` reads: `id`,
`has_children`, `type`, and the per-type payload (`rich_text` for the
text-bearing types, `title` for child pages).  A missing payload key is
the empty list, and a missing `title` is `none` (the code supplies the
default with `block_data.get("title", "")`). -/
structure Block where
  id : Nat
  has_children : Bool
  type : String
  rich_text : List RichTextSpan
  title : Option String
deriving DecidableEq, Repr

/-- Response of one `notion.blocks.children.list` call, restricted to the
fields the code reads (`results`; `has_more` and `next_cursor` are part of
the wire format but `retrieve_all_blocks` never reads them). -/
structure ChildrenResponse where
  results : List Block
  has_more : Bool
  next_cursor : Option String
deriving Repr

/-- One children-listing call issued by the flattener: the block id it was
issued for and the continuation cursor it passed (the source passes no
`start_cursor` argument, which is recorded as `none`). -/
structure ChildrenCall where
  block_id : Nat
  start_cursor : Option String
deriving DecidableEq, Repr

/-- Result of `retrieve_all_blocks`: the Python function returns either the
collected list of blocks or, from its `except` clause, `str(e)` - a plain
string in place of the list.  Both outcomes flow out of the same return
site, so the caller receives this untagged-in-Python union as data. -/
inductive RetrieveResult where
  | blocks (l : List Block)
  | errorString (s : String)
deriving Repr

/-- The Notion children-listing API as seen by the flattener: a function
from a block id and an optional continuation cursor to either a response or
a raised error (carried as the string the code would `str(e)`). -/
def NotionBlocksEnv : Type := Nat → Option String → Except String ChildrenResponse

/-- The loop body of `retrieve_all_blocks` (application.py lines 205-222).
State: remaining fuel, the `blocks_to_process` stack (top at the head), the
`collected_blocks` accumulator, and the trace of children-listing calls
issued so far.  Each iteration pops one id, issues exactly one call with no
cursor, appends every returned child to the output, and pushes the ids of
children whose `has_children` flag is set.  A raised error aborts the whole
traversal, returning `str(e)` in place of the collected list. -/
def retrieveLoop (env : NotionBlocksEnv) :
    Nat → List Nat → List Block → List ChildrenCall →
    Option (RetrieveResult × List ChildrenCall)
  | _, [], collected_blocks, calls => some (.blocks collected_blocks, calls)
  | 0, _ :: _, _, _ => none
  | fuel + 1, current_block_id :: rest, collected_blocks, calls =>
    match env current_block_id none with
    | .error e => some (.errorString e, calls ++ [⟨current_block_id, none⟩])
    | .ok response =>
      let block_children := response.results
      retrieveLoop env fuel
        (((block_children.filter (fun b => b.has_children)).map (fun b => b.id)).reverse ++ rest)
        (collected_blocks ++ block_children)
        (calls ++ [⟨current_block_id, none⟩])

/-- Entry point of the flattener: the work list is seeded with the root id
and both the accumulator and the call trace start empty. -/
def retrieve_all_blocks (env : NotionBlocksEnv) (fuel : Nat) (block_id : Nat) :
    Option (RetrieveResult × List ChildrenCall) :=
  retrieveLoop env fuel [block_id] [] []

/-- The block types recognised as text bearing by
`extract_text_from_blocks` (application.py lines 231-239). -/
def textBlockTypes : List String :=
  ["paragraph", "heading_1", "heading_2", "heading_3",
   "bulleted_list_item", "numbered_list_item", "to_do"]

/-- The three heading types that get the bold-marker wrapping
(application.py line 242). -/
def headingBlockTypes : List String := ["heading_1", "heading_2", "heading_3"]

/-- The text extractor (application.py lines 224-251), translated from the
accumulating for-loop into structural recursion on the block list. -/
def extract_text_from_blocks : List Block → List String
  | [] => []
  | block :: rest =>
    let text_pieces := block.rich_text.map (fun element => element.plain_text)
    if block.type ∈ textBlockTypes then
      (if block.type ∈ headingBlockTypes then
        "**" ++ String.join text_pieces ++ "**"
      else
        String.join text_pieces) :: extract_text_from_blocks rest
    else if block.type = "child_page" then
      (block.title.getD "") :: extract_text_from_blocks rest
    else
      extract_text_from_blocks rest

/-- Spec-side counterpart for the refinement claim about the Text
Extractor: the per-block contribution as the specification words it
(section 4.3) - a heading-level block yields the span concatenation
wrapped in the bold marker, any other recognised text-bearing block yields
the bare concatenation, a nested-page reference yields its title or the
empty string, and any other type contributes nothing.  Declared only to be
compared with the source-derived `extract_text_from_blocks`. -/
def specBlockText (b : Block) : List String :=
  if b.type ∈ headingBlockTypes then
    ["**" ++ String.join (b.rich_text.map (fun element => element.plain_text)) ++ "**"]
  else if b.type ∈ textBlockTypes then
    [String.join (b.rich_text.map (fun element => element.plain_text))]
  else if b.type = "child_page" then
    [b.title.getD ""]
  else
    []

/-- Items accumulated by the paginated collectors are opaque upstream
records; only their identity matters here. -/
abbrev Item := Nat

/-- One page of the Google Calendar events.list response, restricted to the
fields `read_events` reads: `items` (defaulted to the empty list by
`events_result.get("items", [])`) and the optional `nextPageToken`. -/
structure CalendarEventsResponse where
  items : List Item
  nextPageToken : Option String
deriving DecidableEq, Repr

/-- Python truthiness test `not x` for an optional string, as used on
`page_token` and `event_id`: `None` and the empty string are falsy. -/
def pyFalsyStr : Option String → Bool
  | none => true
  | some s => s.isEmpty

/-- The pagination loop of `read_events` (application.py lines 55-74).
Each iteration calls the provider with the current `page_token`, appends
the items of the page, reads the next token, and stops when that token is
falsy (`if not page_token: break`). -/
def read_events_loop (provider : Option String → CalendarEventsResponse) :
    Nat → Option String → List Item → Option (List Item)
  | 0, _, _ => none
  | fuel + 1, page_token, events =>
    let events_result := provider page_token
    let events2 := events ++ events_result.items
    let page_token2 := events_result.nextPageToken
    if pyFalsyStr page_token2 then some events2
    else read_events_loop provider fuel page_token2 events2

/-- Entry point of the calendar collector: `page_token = None`, `events = []`. -/
def read_events (provider : Option String → CalendarEventsResponse) (fuel : Nat) :
    Option (List Item) :=
  read_events_loop provider fuel none []

/-- One page of the `notion.databases.query` response, restricted to the
fields `query_notion_database` reads. -/
structure DatabaseQueryResponse where
  results : List Item
  has_more : Option Bool
  next_cursor : Option String
deriving DecidableEq, Repr

/-- Python truthiness of `response.get("has_more")`: only an explicit
`True` is truthy; `False` and a missing key are falsy. -/
def pyTruthyBool : Option Bool → Bool
  | none => false
  | some b => b

/-- The pagination loop of `query_notion_database` (application.py lines
348-366).  Each iteration calls the provider with the current
`start_cursor`, appends the results of the page, and continues with the
response cursor exactly while `has_more` is truthy. -/
def query_notion_database_loop (provider : Option String → DatabaseQueryResponse) :
    Nat → Option String → List Item → Option (List Item)
  | 0, _, _ => none
  | fuel + 1, start_cursor, results =>
    let response := provider start_cursor
    let results2 := results ++ response.results
    let has_more := response.has_more
    let start_cursor2 := response.next_cursor
    if pyTruthyBool has_more then
      query_notion_database_loop provider fuel start_cursor2 results2
    else some results2

/-- Entry point of the database-query collector: `start_cursor = None`,
`results = []`. -/
def query_notion_database (provider : Option String → DatabaseQueryResponse)
    (fuel : Nat) : Option (List Item) :=
  query_notion_database_loop provider fuel none []

/-- Values stored in an opaque calendar event dictionary: the strings the
handlers write, the `dateTime` wrapper dict, the attendee email-dict list,
and uninterpreted upstream values. -/
inductive PyVal where
  | vStr (s : String)
  | vDateTime (dateTime : String)
  | vEmails (attendees : List String)
  | vOpaque (n : Nat)
deriving DecidableEq, Repr

/-- A Python dictionary with string keys, as a partial map. -/
def PyDict : Type := String → Option PyVal

/-- The effect of `d[key] = v` on a dictionary. -/
def dictSet (d : PyDict) (key : String) (v : PyVal) : PyDict :=
  fun k => if k = key then some v else d k

/-- Python truthiness of an optional string used positively
(`all([summary, start_time, end_time])`): present and nonempty. -/
def pyTruthyStr : Option String → Bool
  | none => false
  | some s => !s.isEmpty

/-- The JSON body of a create-event request, restricted to the keys
`create_event` reads with `data.get`. -/
structure CreateEventRequest where
  calendar_id : Option String
  summary : Option String
  description : Option String
  start_time : Option String
  end_time : Option String
  attendees : List String
deriving Repr

/-- Observable outcome of a calendar route handler: either a client error
raised by `abort(status, ...)` before any upstream call, or the single
upstream call the handler would issue next. -/
inductive CalendarAction where
  | clientError (status : Nat) (message : String)
  | upstreamInsert (calendar_id : String) (body : PyDict)
  | upstreamDelete (calendar_id : String) (event_id : String)
  | upstreamUpdate (calendar_id : String) (event_id : String) (body : PyDict)

/-- The event body built by `create_event` (application.py lines 93-99). -/
def createEventBody (d : CreateEventRequest) : PyDict := fun k =>
  if k = "summary" then d.summary.map .vStr
  else if k = "description" then d.description.map .vStr
  else if k = "start" then d.start_time.map .vDateTime
  else if k = "end" then d.end_time.map .vDateTime
  else if k = "attendees" then some (.vEmails d.attendees)
  else none

/-- The `create_event` handler (application.py lines 78-106): it aborts
with 400 when any of `summary`, `start_time`, `end_time` is falsy
(`if not all([summary, start_time, end_time])`), and only otherwise
reaches the upstream insert call. -/
def create_event (d : CreateEventRequest) : CalendarAction :=
  if !(pyTruthyStr d.summary && pyTruthyStr d.start_time && pyTruthyStr d.end_time) then
    .clientError 400 "Missing required event fields."
  else
    .upstreamInsert (d.calendar_id.getD "primary") (createEventBody d)

/-- The `delete_event` handler (application.py lines 148-162): it aborts
with 400 when `event_id` is falsy, and only otherwise reaches the upstream
delete call. -/
def delete_event (calendar_id : Option String) (event_id : Option String) :
    CalendarAction :=
  if pyFalsyStr event_id then .clientError 400 "Event ID is required."
  else .upstreamDelete (calendar_id.getD "primary") (event_id.getD "")

/-- The JSON body of an edit-event request, restricted to the keys
`edit_event` reads with `data.get`. -/
structure EditEventRequest where
  calendar_id : Option String
  event_id : Option String
  summary : Option String
  description : Option String
  start_time : Option String
  end_time : Option String
  attendees : Option (List String)
deriving Repr

/-- The field-patching core of `edit_event` (application.py lines 124-139):
starting from the fetched event record, each of the five known fields is
overwritten exactly when the corresponding request value is not `None`
(the code tests `is not None`, not truthiness), and no other key is
touched. -/
def edit_event_body (event : PyDict) (d : EditEventRequest) : PyDict :=
  let e1 := match d.summary with
    | some summary => dictSet event "summary" (.vStr summary)
    | none => event
  let e2 := match d.description with
    | some description => dictSet e1 "description" (.vStr description)
    | none => e1
  let e3 := match d.start_time with
    | some start_time => dictSet e2 "start" (.vDateTime start_time)
    | none => e2
  let e4 := match d.end_time with
    | some end_time => dictSet e3 "end" (.vDateTime end_time)
    | none => e3
  match d.attendees with
  | some attendees => dictSet e4 "attendees" (.vEmails attendees)
  | none => e4

/-- The `edit_event` handler (application.py lines 108-146), with the
already-fetched event record as a parameter (the fetch itself is an
upstream call whose failure path aborts with 500 before this point). -/
def edit_event (fetched : PyDict) (d : EditEventRequest) : CalendarAction :=
  if pyFalsyStr d.event_id then .clientError 400 "Event ID is required."
  else .upstreamUpdate (d.calendar_id.getD "primary") (d.event_id.getD "")
    (edit_event_body fetched d)

/-- The per-type payload of a block as stored in the provider, without the
derived `has_children` flag. -/
structure BlockData where
  id : Nat
  type : String
  rich_text : List RichTextSpan
  title : Option String
deriving DecidableEq, Repr

/-- A finite tree of content blocks, used to state the traversal claims:
each node carries its payload and the list of its child nodes. -/
inductive BTree where
  | node (data : BlockData) (children : List BTree)

/-- Payload of the root of a tree. -/
def BTree.data : BTree → BlockData
  | .node d _ => d

/-- Children of the root of a tree. -/
def BTree.children : BTree → List BTree
  | .node _ c => c

/-- Whether a node has child blocks. -/
def hasKids (t : BTree) : Bool := !t.children.isEmpty

/-- The wire-format block record of a tree node; the `has_children` flag is
set exactly when the node has children, which is the Notion invariant the
flattener relies on. -/
def toBlock (t : BTree) : Block :=
  { id := t.data.id, has_children := hasKids t, type := t.data.type,
    rich_text := t.data.rich_text, title := t.data.title }

mutual
/-- Number of nodes of a tree. -/
def sizeT : BTree → Nat
  | .node _ cs => 1 + sizeF cs
/-- Number of nodes of a forest. -/
def sizeF : List BTree → Nat
  | [] => 0
  | t :: ts => sizeT t + sizeF ts
end

mutual
/-- All nodes of a tree, the root included. -/
def allNodes : BTree → List BTree
  | .node d cs => .node d cs :: allNodesF cs
/-- All nodes of a forest. -/
def allNodesF : List BTree → List BTree
  | [] => []
  | t :: ts => allNodes t ++ allNodesF ts
end

/-- All strict descendants of the roots of a forest: the nodes the
flattener still has to emit when the roots are on the work list. -/
def pendingForest (ts : List BTree) : List BTree :=
  ts.flatMap (fun t => allNodesF t.children)

/-- Block records of the pending nodes of a forest. -/
def pendingBlocks (ts : List BTree) : List Block :=
  (pendingForest ts).map toBlock

/-- The work-list image of a forest: the ids of its roots, top first. -/
def stackOf (ts : List BTree) : List Nat :=
  ts.map (fun t => t.data.id)

/-- The ids the flattener will pop while draining a forest: the roots on
the stack plus every pending node whose `has_children` flag is set. -/
def popIds (ts : List BTree) : List Nat :=
  stackOf ts ++ ((pendingForest ts).filter hasKids).map (fun t => t.data.id)

/-- The children-listing provider agrees with a forest: for every node of
the forest, the uncursored call on its id succeeds and returns exactly its
children, in order. -/
def envModels (env : NotionBlocksEnv) (ts : List BTree) : Prop :=
  ∀ u ∈ allNodesF ts, ∃ response, env u.data.id none = Except.ok response ∧
    response.results = u.children.map toBlock

/-- Strict precedence of two occurrences in a list: some occurrence of `a`
is followed, further right, by some occurrence of `b`. -/
def before {α : Type} (l : List α) (a b : α) : Prop :=
  ∃ l1 l2 l3, l = l1 ++ a :: l2 ++ b :: l3

/-- Example forest from the testable properties of the spec: a root with
two children, the second of which has two grandchildren. -/
def exG1 : BTree := .node ⟨3, "paragraph", [⟨"g1"⟩], none⟩ []

/-- Second grandchild of the example tree. -/
def exG2 : BTree := .node ⟨4, "quote", [], none⟩ []

/-- First child of the example tree, a leaf paragraph. -/
def exC1 : BTree := .node ⟨1, "paragraph", [⟨"a"⟩, ⟨"b"⟩], none⟩ []

/-- Second child of the example tree, a heading with two grandchildren. -/
def exC2 : BTree := .node ⟨2, "heading_1", [⟨"Hello"⟩, ⟨" World"⟩], none⟩ [exG1, exG2]

/-- Root of the example tree. -/
def exRoot : BTree := .node ⟨0, "page", [], none⟩ [exC1, exC2]

/-- Children-listing provider realising the example tree, with single-page
children for every node. -/
def exEnv : NotionBlocksEnv := fun block_id _ =>
  if block_id = 0 then .ok ⟨[toBlock exC1, toBlock exC2], false, none⟩
  else if block_id = 2 then .ok ⟨[toBlock exG1, toBlock exG2], false, none⟩
  else .ok ⟨[], false, none⟩

/-- A block that the paged provider below serves only on the second page of
the children of node 2; it must not appear in the flattener output. -/
def exExtraBlock : Block := ⟨9, false, "paragraph", [⟨"late"⟩], none⟩

/-- Children-listing provider realising the example tree on uncursored
calls but holding a second page of children for node 2, reachable only
through a continuation cursor the flattener never passes. -/
def exPagedEnv : NotionBlocksEnv := fun block_id start_cursor =>
  match start_cursor with
  | none =>
    if block_id = 0 then .ok ⟨[toBlock exC1, toBlock exC2], false, none⟩
    else if block_id = 2 then .ok ⟨[toBlock exG1, toBlock exG2], true, some "page2"⟩
    else .ok ⟨[], false, none⟩
  | some _ => .ok ⟨[exExtraBlock], false, none⟩

/-- Children-listing provider whose fetch for node 2 raises. -/
def exFailEnv : NotionBlocksEnv := fun block_id _ =>
  if block_id = 0 then .ok ⟨[toBlock exC1, toBlock exC2], false, none⟩
  else if block_id = 2 then .error "APIResponseError: boom"
  else .ok ⟨[], false, none⟩

/-- Calendar provider stub with two pages: the first page carries a
continuation token, the second carries none. -/
def twoPageCalProvider : Option String → CalendarEventsResponse := fun tok =>
  match tok with
  | none => { items := [1, 2], nextPageToken := some "c" }
  | some _ => { items := [3, 4], nextPageToken := none }

/-- Token sequence of `twoPageCalProvider`. -/
def twoPageCalTok : Nat → Option String := fun k =>
  if k = 0 then none else some "c"

/-- Database-query provider stub with two pages: `has_more` is true on the
first page and false on the second. -/
def twoPageQueryProvider : Option String → DatabaseQueryResponse := fun cur =>
  match cur with
  | none => { results := [5, 6], has_more := some true, next_cursor := some "d" }
  | some _ => { results := [7], has_more := some false, next_cursor := none }

/-- Cursor sequence of `twoPageQueryProvider`. -/
def twoPageQueryCur : Nat → Option String := fun k =>
  if k = 0 then none else some "d"

/-- Calendar provider that always returns a further-pages token: an
upstream that never signals completion. -/
def endlessCalProvider : Option String → CalendarEventsResponse :=
  fun _ => { items := [1], nextPageToken := some "t" }

/-- Database-query provider that always reports `has_more = True`. -/
def endlessQueryProvider : Option String → DatabaseQueryResponse :=
  fun _ => { results := [2], has_more := some true, next_cursor := some "t" }

/-- Calendar provider whose response carries a present but empty
`nextPageToken`. -/
def emptyCursorProvider : Option String → CalendarEventsResponse :=
  fun _ => { items := [7], nextPageToken := some "" }

/-- Fetched event record used in the edit-event examples: an upstream
record with fields the handler knows and fields it does not. -/
def exFetchedEvent : PyDict := fun k =>
  if k = "summary" then some (.vStr "old summary")
  else if k = "colorId" then some (.vOpaque 11)
  else if k = "description" then some (.vStr "old description")
  else none

/-- Edit request that changes the summary and the end time only. -/
def exEditRequest : EditEventRequest :=
  { calendar_id := none, event_id := some "ev1", summary := some "new summary",
    description := none, start_time := none, end_time := some "2024-01-01T10:00:00",
    attendees := none }

/-- Unfolding of `allNodes` through the accessors. -/
theorem allNodes_eq (t : BTree) : allNodes t = t :: allNodesF t.children := by
  cases t
  simp [allNodes, BTree.children]

/-- Unfolding of `sizeT` through the accessors. -/
theorem sizeT_eq (t : BTree) : sizeT t = 1 + sizeF t.children := by
  cases t
  simp [sizeT, BTree.children]

/-- Size of a forest concatenation. -/
theorem sizeF_append (a b : List BTree) : sizeF (a ++ b) = sizeF a + sizeF b := by
  induction a with
  | nil => simp [sizeF]
  | cons t ts ih => simp [sizeF, ih]; omega

/-- Size of a reversed forest. -/
theorem sizeF_reverse (l : List BTree) : sizeF l.reverse = sizeF l := by
  induction l with
  | nil => rfl
  | cons t ts ih => simp [sizeF, List.reverse_cons, sizeF_append, ih]; omega

/-- Filtering cannot grow a forest. -/
theorem sizeF_filter_le (p : BTree → Bool) (l : List BTree) :
    sizeF (l.filter p) ≤ sizeF l := by
  induction l with
  | nil => simp [sizeF]
  | cons t ts ih =>
    by_cases h : p t <;> simp [List.filter_cons, h, sizeF] <;> omega

/-- Every tree has at least one node. -/
theorem sizeT_pos (t : BTree) : 1 ≤ sizeT t := by
  rw [sizeT_eq]; omega

/-- Concatenation of forests, through `allNodesF`. -/
theorem allNodesF_append (a b : List BTree) :
    allNodesF (a ++ b) = allNodesF a ++ allNodesF b := by
  induction a with
  | nil => simp [allNodesF]
  | cons t ts ih => simp [allNodesF, ih]

/-- Membership in the node list of a forest. -/
theorem mem_allNodesF {u : BTree} {l : List BTree} :
    u ∈ allNodesF l ↔ ∃ t ∈ l, u ∈ allNodes t := by
  induction l with
  | nil => simp [allNodesF]
  | cons t ts ih => simp [allNodesF, ih]

/-- A node without the `has_children` flag has no children. -/
theorem hasKids_false_children {t : BTree} (h : hasKids t = false) :
    t.children = [] := by
  simpa [hasKids] using h

/-- Pending nodes of a forest with one more root. -/
theorem pendingForest_cons (t : BTree) (ts : List BTree) :
    pendingForest (t :: ts) = allNodesF t.children ++ pendingForest ts := by
  simp [pendingForest]

/-- Pending nodes of a forest concatenation. -/
theorem pendingForest_append (a b : List BTree) :
    pendingForest (a ++ b) = pendingForest a ++ pendingForest b := by
  simp [pendingForest]

/-- Dropping the childless roots does not change the pending nodes. -/
theorem pendingForest_filter_hasKids (l : List BTree) :
    pendingForest (l.filter hasKids) = pendingForest l := by
  induction l with
  | nil => rfl
  | cons t ts ih =>
    by_cases h : hasKids t
    · simp [List.filter_cons, h, pendingForest_cons, ih]
    · have hc : t.children = [] := hasKids_false_children (by simpa using h)
      simp [List.filter_cons, h, pendingForest_cons, ih, hc, allNodesF]

/-- Reversing the roots permutes the pending nodes. -/
theorem pendingForest_reverse_perm (l : List BTree) :
    (pendingForest l.reverse).Perm (pendingForest l) :=
  (List.reverse_perm l).flatMap_right _

/-- The nodes of a forest are its roots plus its pending nodes. -/
theorem allNodesF_perm (l : List BTree) :
    (allNodesF l).Perm (l ++ pendingForest l) := by
  induction l with
  | nil => simp [allNodesF, pendingForest]
  | cons t ts ih =>
    classical
    rw [List.perm_iff_count]
    intro a
    have h1 := ih.count_eq a
    simp only [allNodesF, allNodes_eq, pendingForest_cons, List.count_append,
      List.count_cons] at *
    omega

/-- Precedence is stable under prepending. -/
theorem before_append_left {α : Type} {l : List α} {a b : α} (k : List α)
    (h : before l a b) : before (k ++ l) a b := by
  obtain ⟨l1, l2, l3, rfl⟩ := h
  exact ⟨k ++ l1, l2, l3, by simp⟩

/-- An element of the left part precedes an element of the right part. -/
theorem before_of_mem_mem {α : Type} {l k : List α} {a b : α}
    (ha : a ∈ l) (hb : b ∈ k) : before (l ++ k) a b := by
  obtain ⟨l1, l2, rfl⟩ := List.append_of_mem ha
  obtain ⟨k1, k2, rfl⟩ := List.append_of_mem hb
  exact ⟨l1, l2 ++ k1, k2, by simp⟩

/-- A node with a child has the `has_children` flag. -/
theorem hasKids_of_mem {c t : BTree} (h : c ∈ t.children) : hasKids t = true := by
  simp only [hasKids, Bool.not_eq_true']
  cases hcs : t.children with
  | nil => rw [hcs] at h; cases h
  | cons a l => simp

/-- A node with a strict descendant has the `has_children` flag. -/
theorem hasKids_of_mem_allNodesF {u t : BTree} (h : u ∈ allNodesF t.children) :
    hasKids t = true := by
  cases hcs : t.children with
  | nil => rw [hcs] at h; simp [allNodesF] at h
  | cons a l => simp [hasKids, hcs]

/-- A raised children fetch aborts the whole traversal on the spot: the
collected blocks are discarded and the error string takes the place of the
result list. -/
theorem retrieveLoop_abort (env : NotionBlocksEnv) (fuel : Nat) (i : Nat)
    (rest : List Nat) (acc : List Block) (tr : List ChildrenCall) (e : String)
    (h : env i none = Except.error e) :
    retrieveLoop env (fuel + 1) (i :: rest) acc tr =
      some (.errorString e, tr ++ [⟨i, none⟩]) := by
  simp [retrieveLoop, h]

/-- An error-string result of the traversal always originates from a failed
children fetch. -/
theorem retrieveLoop_error_source (env : NotionBlocksEnv) :
    ∀ (fuel : Nat) (stack : List Nat) (acc : List Block) (tr : List ChildrenCall)
      (e : String) (trc : List ChildrenCall),
      retrieveLoop env fuel stack acc tr = some (.errorString e, trc) →
      ∃ i, env i none = Except.error e := by
  intro fuel
  induction fuel with
  | zero =>
    intro stack acc tr e trc h
    cases stack with
    | nil => simp [retrieveLoop] at h
    | cons i rest => simp [retrieveLoop] at h
  | succ f ih =>
    intro stack acc tr e trc h
    cases stack with
    | nil => simp [retrieveLoop] at h
    | cons i rest =>
      cases henv : env i none with
      | error er =>
        refine ⟨i, ?_⟩
        rw [henv]
        simp [retrieveLoop, henv] at h
        rw [h.1]
      | ok resp =>
        simp only [retrieveLoop, henv] at h
        exact ih _ _ _ _ _ h

/-- Every block the traversal emits comes from the first (uncursored) page
of some children-listing call, or was already in the accumulator. -/
theorem retrieveLoop_output_mem (env : NotionBlocksEnv) :
    ∀ (fuel : Nat) (stack : List Nat) (acc : List Block) (tr : List ChildrenCall)
      (out : List Block) (trc : List ChildrenCall),
      retrieveLoop env fuel stack acc tr = some (.blocks out, trc) →
      ∀ b ∈ out, b ∈ acc ∨
        ∃ i response, env i none = Except.ok response ∧ b ∈ response.results := by
  intro fuel
  induction fuel with
  | zero =>
    intro stack acc tr out trc h b hb
    cases stack with
    | nil =>
      simp [retrieveLoop] at h
      left
      rw [h.1]
      exact hb
    | cons i rest => simp [retrieveLoop] at h
  | succ f ih =>
    intro stack acc tr out trc h b hb
    cases stack with
    | nil =>
      simp [retrieveLoop] at h
      left
      rw [h.1]
      exact hb
    | cons i rest =>
      cases henv : env i none with
      | error er => simp [retrieveLoop, henv] at h
      | ok resp =>
        simp only [retrieveLoop, henv] at h
        rcases ih _ _ _ _ _ h b hb with hacc | hsrc
        · rcases List.mem_append.mp hacc with h1 | h2
          · exact Or.inl h1
          · exact Or.inr ⟨i, resp, henv, h2⟩
        · exact Or.inr hsrc

/-- Master simulation of the flattener loop over a forest: when the work
list holds the root ids of the trees of `ts` (top first) and the provider
agrees with the forest, the loop terminates with exactly the pending nodes
of the forest appended to the accumulator, having issued one uncursored
call for each stacked root and for each pending node with children, and
every pending parent precedes its children in the emitted segment. -/
theorem retrieveLoop_sim (env : NotionBlocksEnv) :
    ∀ (fuel : Nat) (ts : List BTree) (acc : List Block) (tr : List ChildrenCall),
      sizeF ts ≤ fuel → envModels env ts →
      ∃ out trc,
        retrieveLoop env fuel (stackOf ts) acc tr =
          some (.blocks (acc ++ out), tr ++ trc) ∧
        out.Perm (pendingBlocks ts) ∧
        ((trc.map (fun c => c.block_id)).Perm (popIds ts)) ∧
        (∀ c ∈ trc, c.start_cursor = none) ∧
        (∀ t ∈ ts, ∀ c ∈ t.children, toBlock c ∈ out) ∧
        (∀ t ∈ ts, ∀ u ∈ allNodesF t.children, ∀ c ∈ u.children,
          before out (toBlock u) (toBlock c)) := by
  intro fuel
  induction fuel with
  | zero =>
    intro ts acc tr hsize henv
    have hts : ts = [] := by
      cases ts with
      | nil => rfl
      | cons t ts2 =>
        exfalso
        have h1 := sizeT_pos t
        simp [sizeF] at hsize
        omega
    subst hts
    refine ⟨[], [], ?_, ?_, ?_, ?_, ?_, ?_⟩
    · simp [stackOf, retrieveLoop]
    · simp [pendingBlocks, pendingForest]
    · simp [popIds, stackOf, pendingForest]
    · simp
    · simp
    · simp
  | succ f ih =>
    intro ts acc tr hsize henv
    cases ts with
    | nil =>
      refine ⟨[], [], ?_, ?_, ?_, ?_, ?_, ?_⟩
      · simp [stackOf, retrieveLoop]
      · simp [pendingBlocks, pendingForest]
      · simp [popIds, stackOf, pendingForest]
      · simp
      · simp
      · simp
    | cons t rest =>
      cases t with
      | node d cs =>
        have htmem : (BTree.node d cs) ∈ allNodesF (BTree.node d cs :: rest) := by
          simp [allNodesF, allNodes_eq]
        obtain ⟨resp, hresp, hresults⟩ := henv _ htmem
        rw [show (BTree.node d cs).children = cs from rfl] at hresults
        have hsize2 : sizeF ((cs.filter hasKids).reverse ++ rest) ≤ f := by
          have h1 : sizeF (cs.filter hasKids) ≤ sizeF cs := sizeF_filter_le _ _
          have h2 : sizeT (BTree.node d cs) + sizeF rest ≤ f + 1 := by
            simpa [sizeF] using hsize
          have h3 : sizeT (BTree.node d cs) = 1 + sizeF cs := by simp [sizeT]
          rw [sizeF_append, sizeF_reverse]
          omega
        have henv2 : envModels env ((cs.filter hasKids).reverse ++ rest) := by
          intro u hu
          apply henv
          have expand : allNodesF (BTree.node d cs :: rest) =
              allNodes (BTree.node d cs) ++ allNodesF rest := by
            simp [allNodesF]
          rw [expand, List.mem_append, allNodes_eq,
            show (BTree.node d cs).children = cs from rfl]
          rw [allNodesF_append, List.mem_append] at hu
          rcases hu with h1 | h2
          · obtain ⟨v, hv, huv⟩ := mem_allNodesF.mp h1
            have hvcs : v ∈ cs := (List.mem_filter.mp (List.mem_reverse.mp hv)).1
            exact Or.inl (List.mem_cons.mpr (Or.inr (mem_allNodesF.mpr ⟨v, hvcs, huv⟩)))
          · exact Or.inr h2
        obtain ⟨out2, trc2, hrun2, hperm2, hpop2, hcur2, hmem2, hbefore2⟩ :=
          ih ((cs.filter hasKids).reverse ++ rest) (acc ++ cs.map toBlock)
            (tr ++ [⟨d.id, none⟩]) hsize2 henv2
        refine ⟨cs.map toBlock ++ out2, ⟨d.id, none⟩ :: trc2, ?_, ?_, ?_, ?_, ?_, ?_⟩
        · have hstack : stackOf (BTree.node d cs :: rest) = d.id :: stackOf rest := by
            simp [stackOf, BTree.data]
          rw [hstack]
          have hresp2 : env d.id none = Except.ok resp := hresp
          simp only [retrieveLoop, hresp2]
          rw [hresults]
          have hfm : (((cs.map toBlock).filter (fun b => b.has_children)).map
              (fun b => b.id)).reverse ++ stackOf rest =
              stackOf ((cs.filter hasKids).reverse ++ rest) := by
            rw [List.filter_map, List.map_map]
            simp only [stackOf, List.map_append, List.map_reverse]
            rfl
          rw [hfm, hrun2]
          simp [List.append_assoc]
        · classical
          rw [List.perm_iff_count]
          intro a
          have h2 := hperm2.count_eq a
          have h3 := ((pendingForest_reverse_perm (cs.filter hasKids)).map toBlock).count_eq a
          have h4 := ((allNodesF_perm cs).map toBlock).count_eq a
          simp only [pendingBlocks, pendingForest_cons, pendingForest_append,
            pendingForest_filter_hasKids, List.map_append, List.count_append,
            BTree.children] at h2 h3 h4 ⊢
          omega
        · have hshape : popIds (BTree.node d cs :: rest) =
              d.id :: (stackOf rest ++
                ((pendingForest (BTree.node d cs :: rest)).filter hasKids).map
                  (fun t => t.data.id)) := by
            simp [popIds, stackOf, BTree.data]
          rw [List.map_cons, hshape]
          refine List.Perm.cons _ ?_
          classical
          rw [List.perm_iff_count]
          intro a
          have h2 := hpop2.count_eq a
          have h3 := (((pendingForest_reverse_perm (cs.filter hasKids)).filter
            hasKids).map (fun t => t.data.id)).count_eq a
          have h4 := (((allNodesF_perm cs).filter hasKids).map
            (fun t => t.data.id)).count_eq a
          simp only [popIds, stackOf, pendingForest_cons, pendingForest_append,
            pendingForest_filter_hasKids, List.filter_append, List.map_append,
            List.map_reverse, List.count_append, List.count_reverse,
            BTree.children] at h2 h3 h4 ⊢
          omega
        · intro c hc
          rcases List.mem_cons.mp hc with rfl | h2
          · rfl
          · exact hcur2 _ h2
        · intro t2 ht2 c hc
          rcases List.mem_cons.mp ht2 with rfl | hrest
          · have hcs2 : c ∈ cs := hc
            exact List.mem_append_left _ (List.mem_map_of_mem toBlock hcs2)
          · have hts2 : t2 ∈ (cs.filter hasKids).reverse ++ rest :=
              List.mem_append_right _ hrest
            exact List.mem_append_right _ (hmem2 t2 hts2 c hc)
        · intro t2 ht2 u hu c hc
          rcases List.mem_cons.mp ht2 with rfl | hrest
          · have hu2 : u ∈ allNodesF cs := hu
            obtain ⟨ci, hci, huci⟩ := mem_allNodesF.mp hu2
            rw [allNodes_eq] at huci
            rcases List.mem_cons.mp huci with rfl | hdeeper
            · have hkids : hasKids u = true := hasKids_of_mem hc
              have hcits2 : u ∈ (cs.filter hasKids).reverse ++ rest :=
                List.mem_append_left _
                  (List.mem_reverse.mpr (List.mem_filter.mpr ⟨hci, hkids⟩))
              exact before_of_mem_mem (List.mem_map_of_mem toBlock hci)
                (hmem2 u hcits2 c hc)
            · have hkids : hasKids ci = true := hasKids_of_mem_allNodesF hdeeper
              have hcits2 : ci ∈ (cs.filter hasKids).reverse ++ rest :=
                List.mem_append_left _
                  (List.mem_reverse.mpr (List.mem_filter.mpr ⟨hci, hkids⟩))
              exact before_append_left _ (hbefore2 ci hcits2 u hdeeper c hc)
          · have hts2 : t2 ∈ (cs.filter hasKids).reverse ++ rest :=
              List.mem_append_right _ hrest
            exact before_append_left _ (hbefore2 t2 hts2 u hu c hc)

/-- Top-level run of the flattener on a single tree whose provider matches
it: instantiation of the simulation at work list `[root id]`, empty
accumulator and empty trace. -/
theorem retrieve_all_blocks_run (env : NotionBlocksEnv) (root : BTree) (fuel : Nat)
    (hfuel : sizeT root ≤ fuel)
    (henv : ∀ u ∈ allNodes root, ∃ response,
      env u.data.id none = Except.ok response ∧
      response.results = u.children.map toBlock) :
    ∃ out trc,
      retrieve_all_blocks env fuel root.data.id = some (.blocks out, trc) ∧
      out.Perm ((allNodesF root.children).map toBlock) ∧
      ((trc.map (fun c => c.block_id)).Perm
        (root.data.id :: ((allNodesF root.children).filter hasKids).map
          (fun t => t.data.id))) ∧
      (∀ c ∈ trc, c.start_cursor = none) ∧
      (∀ u ∈ allNodesF root.children, ∀ c ∈ u.children,
        before out (toBlock u) (toBlock c)) := by
  have hsize : sizeF [root] ≤ fuel := by simpa [sizeF] using hfuel
  have henv2 : envModels env [root] := by
    intro u hu
    exact henv u (by simpa [allNodesF] using hu)
  obtain ⟨out, trc, hrun, hperm, hpop, hcur, _, hbefore⟩ :=
    retrieveLoop_sim env fuel [root] [] [] hsize henv2
  refine ⟨out, trc, ?_, ?_, ?_, hcur, ?_⟩
  · simpa [retrieve_all_blocks, stackOf] using hrun
  · simpa [pendingBlocks, pendingForest] using hperm
  · simpa [popIds, stackOf, pendingForest] using hpop
  · exact hbefore root (List.mem_singleton.mpr rfl)

/-- Distinct node ids give duplicate-free emitted blocks, exclude the root
record from the emitted blocks, and give a duplicate-free pop list. -/
theorem nodup_consequences (root : BTree)
    (hids : ((allNodes root).map (fun t => t.data.id)).Nodup) :
    ((allNodesF root.children).map toBlock).Nodup ∧
    toBlock root ∉ (allNodesF root.children).map toBlock ∧
    (root.data.id :: ((allNodesF root.children).filter hasKids).map
      (fun t => t.data.id)).Nodup := by
  rw [allNodes_eq, List.map_cons, List.nodup_cons] at hids
  obtain ⟨hroot, htail⟩ := hids
  have hblocks : ((allNodesF root.children).map toBlock).Nodup := by
    refine List.Nodup.of_map (fun b => b.id) ?_
    rw [List.map_map]
    exact htail
  refine ⟨hblocks, ?_, ?_⟩
  · intro hmem
    obtain ⟨u, hu, hequ⟩ := List.mem_map.mp hmem
    have : u.data.id = root.data.id := congrArg Block.id hequ
    exact hroot (this ▸ List.mem_map_of_mem (fun t => t.data.id) hu)
  · have hsub : List.Sublist
        (((allNodesF root.children).filter hasKids).map (fun t => t.data.id))
        ((allNodesF root.children).map (fun t => t.data.id)) :=
      (List.filter_sublist _).map _
    exact List.nodup_cons.mpr
      ⟨fun h => hroot (hsub.subset h), htail.sublist hsub⟩

/-- C1: on every finite tree of content blocks with pairwise distinct ids
whose children-listing provider agrees with the tree, the Block Tree
Flattener terminates within fuel equal to the node count, visiting every
reachable block exactly once: the output is a duplicate-free permutation of
the strict descendants of the root, no block is revisited (never appearing
twice), and every child block appears in the output after its parent.  The
final conjunct records that the loop returns its accumulated output exactly
at the empty work list. -/
theorem flattener_visits_each_reachable_block_once
    (env : NotionBlocksEnv) (root : BTree) (fuel : Nat)
    (hfuel : sizeT root ≤ fuel)
    (henv : ∀ u ∈ allNodes root, ∃ response,
      env u.data.id none = Except.ok response ∧
      response.results = u.children.map toBlock)
    (hids : ((allNodes root).map (fun t => t.data.id)).Nodup) :
    ∃ out trc,
      retrieve_all_blocks env fuel root.data.id = some (.blocks out, trc) ∧
      out.Perm ((allNodesF root.children).map toBlock) ∧
      out.Nodup ∧
      (∀ u ∈ allNodesF root.children, ∀ c ∈ u.children,
        before out (toBlock u) (toBlock c)) ∧
      (∀ f2 acc tr, retrieveLoop env f2 [] acc tr = some (.blocks acc, tr)) := by
  obtain ⟨out, trc, hrun, hperm, _, _, hbefore⟩ :=
    retrieve_all_blocks_run env root fuel hfuel henv
  obtain ⟨hblocks, _, _⟩ := nodup_consequences root hids
  refine ⟨out, trc, hrun, hperm, hperm.nodup_iff.mpr hblocks, hbefore, ?_⟩
  intro f2 acc tr
  cases f2 <;> simp [retrieveLoop]

/-- Witness for C1 on the example tree of the spec: a root (id 0) with two
children (ids 1 and 2), the second of which has two grandchildren (ids 3
and 4). -/
theorem flattener_visits_each_reachable_block_once_witness :
    (sizeT exRoot ≤ 5 ∧ ((allNodes exRoot).map (fun t => t.data.id)).Nodup) ∧
    (∃ out trc,
      retrieve_all_blocks exEnv 5 exRoot.data.id = some (.blocks out, trc) ∧
      out.Perm ((allNodesF exRoot.children).map toBlock) ∧
      out.Nodup ∧
      (∀ u ∈ allNodesF exRoot.children, ∀ c ∈ u.children,
        before out (toBlock u) (toBlock c)) ∧
      (∀ f2 acc tr, retrieveLoop exEnv f2 [] acc tr = some (.blocks acc, tr))) :=
  ⟨⟨by decide, by decide⟩,
    flattener_visits_each_reachable_block_once exEnv exRoot 5 (by decide)
      (by
        intro u hu
        simp [exRoot, exC1, exC2, exG1, exG2, allNodes, allNodesF] at hu
        rcases hu with rfl | rfl | rfl | rfl | rfl <;> exact ⟨_, rfl, rfl⟩)
      (by decide)⟩

/-- C10: under the same agreement between provider and tree, the block
record of the root itself never appears in the flattener output; the output
holds only strict descendants of the root, because only children of
processed identifiers are ever appended. -/
theorem flattener_output_excludes_root
    (env : NotionBlocksEnv) (root : BTree) (fuel : Nat)
    (hfuel : sizeT root ≤ fuel)
    (henv : ∀ u ∈ allNodes root, ∃ response,
      env u.data.id none = Except.ok response ∧
      response.results = u.children.map toBlock)
    (hids : ((allNodes root).map (fun t => t.data.id)).Nodup) :
    ∃ out trc,
      retrieve_all_blocks env fuel root.data.id = some (.blocks out, trc) ∧
      (∀ b ∈ out, b ∈ (allNodesF root.children).map toBlock) ∧
      toBlock root ∉ out := by
  obtain ⟨out, trc, hrun, hperm, _, _, _⟩ :=
    retrieve_all_blocks_run env root fuel hfuel henv
  obtain ⟨_, hroot, _⟩ := nodup_consequences root hids
  exact ⟨out, trc, hrun, fun b hb => hperm.mem_iff.mp hb,
    fun h => hroot (hperm.mem_iff.mp h)⟩

/-- Witness for C10 on the example tree: the root record is absent from the
output of the run. -/
theorem flattener_output_excludes_root_witness :
    (sizeT exRoot ≤ 9 ∧ ((allNodes exRoot).map (fun t => t.data.id)).Nodup) ∧
    (∃ out trc,
      retrieve_all_blocks exEnv 9 exRoot.data.id = some (.blocks out, trc) ∧
      (∀ b ∈ out, b ∈ (allNodesF exRoot.children).map toBlock) ∧
      toBlock exRoot ∉ out) :=
  ⟨⟨by decide, by decide⟩,
    flattener_output_excludes_root exEnv exRoot 9 (by decide)
      (by
        intro u hu
        simp [exRoot, exC1, exC2, exG1, exG2, allNodes, allNodesF] at hu
        rcases hu with rfl | rfl | rfl | rfl | rfl <;> exact ⟨_, rfl, rfl⟩)
      (by decide)⟩

/-- C5: in the same setting, the flattener issues exactly one
children-listing call for each popped node, always with no continuation
cursor: the traced calls are a duplicate-free enumeration of the root and
of every descendant whose `has_children` flag is set, every traced call
carries cursor `none`, and every emitted block comes from the first
(uncursored) page of some call - children beyond the first page of any
node are absent from the output. -/
theorem flattener_single_uncursored_call_per_node
    (env : NotionBlocksEnv) (root : BTree) (fuel : Nat)
    (hfuel : sizeT root ≤ fuel)
    (henv : ∀ u ∈ allNodes root, ∃ response,
      env u.data.id none = Except.ok response ∧
      response.results = u.children.map toBlock)
    (hids : ((allNodes root).map (fun t => t.data.id)).Nodup) :
    ∃ out trc,
      retrieve_all_blocks env fuel root.data.id = some (.blocks out, trc) ∧
      (∀ c ∈ trc, c.start_cursor = none) ∧
      ((trc.map (fun c => c.block_id)).Perm
        (root.data.id :: ((allNodesF root.children).filter hasKids).map
          (fun t => t.data.id))) ∧
      (root.data.id :: ((allNodesF root.children).filter hasKids).map
        (fun t => t.data.id)).Nodup ∧
      (∀ b ∈ out, ∃ i response,
        env i none = Except.ok response ∧ b ∈ response.results) := by
  obtain ⟨out, trc, hrun, _, hpop, hcur, _⟩ :=
    retrieve_all_blocks_run env root fuel hfuel henv
  obtain ⟨_, _, hnodup⟩ := nodup_consequences root hids
  refine ⟨out, trc, hrun, hcur, hpop, hnodup, ?_⟩
  intro b hb
  have h := retrieveLoop_output_mem env fuel [root.data.id] [] [] out trc hrun b hb
  rcases h with habs | hsrc
  · cases habs
  · exact hsrc

/-- Witness for C5 on the example tree served by a provider that holds a
second page of children for node 2: the run issues one uncursored call per
popped node and every emitted block comes from a first page. -/
theorem flattener_single_uncursored_call_per_node_witness :
    (sizeT exRoot ≤ 6 ∧ ((allNodes exRoot).map (fun t => t.data.id)).Nodup) ∧
    (∃ out trc,
      retrieve_all_blocks exPagedEnv 6 exRoot.data.id = some (.blocks out, trc) ∧
      (∀ c ∈ trc, c.start_cursor = none) ∧
      ((trc.map (fun c => c.block_id)).Perm
        (exRoot.data.id :: ((allNodesF exRoot.children).filter hasKids).map
          (fun t => t.data.id))) ∧
      (exRoot.data.id :: ((allNodesF exRoot.children).filter hasKids).map
        (fun t => t.data.id)).Nodup ∧
      (∀ b ∈ out, ∃ i response,
        exPagedEnv i none = Except.ok response ∧ b ∈ response.results)) :=
  ⟨⟨by decide, by decide⟩,
    flattener_single_uncursored_call_per_node exPagedEnv exRoot 6 (by decide)
      (by
        intro u hu
        simp [exRoot, exC1, exC2, exG1, exG2, allNodes, allNodesF] at hu
        rcases hu with rfl | rfl | rfl | rfl | rfl <;> exact ⟨_, rfl, rfl⟩)
      (by decide)⟩

/-- C6: a failing children fetch makes the flattener abort the whole
traversal on the spot, discarding every block collected so far, and
surface the failure as a plain string value in place of the result list -
same value slot, so the caller gets the error as data, not as a raised
exception; conversely an error-string result always originates from a
failed fetch.  The last conjunct is the top-level run with a failing root
fetch. -/
theorem flattener_error_returned_as_string :
    (∀ (env : NotionBlocksEnv) (fuel i : Nat) (rest : List Nat)
      (acc : List Block) (tr : List ChildrenCall) (e : String),
      env i none = Except.error e →
      retrieveLoop env (fuel + 1) (i :: rest) acc tr =
        some (.errorString e, tr ++ [⟨i, none⟩])) ∧
    (∀ (env : NotionBlocksEnv) (fuel : Nat) (stack : List Nat)
      (acc : List Block) (tr : List ChildrenCall) (e : String)
      (trc : List ChildrenCall),
      retrieveLoop env fuel stack acc tr = some (.errorString e, trc) →
      ∃ i, env i none = Except.error e) ∧
    (∀ (env : NotionBlocksEnv) (fuel block_id : Nat) (e : String),
      env block_id none = Except.error e →
      retrieve_all_blocks env (fuel + 1) block_id =
        some (.errorString e, [⟨block_id, none⟩])) :=
  ⟨fun env fuel i rest acc tr e h => retrieveLoop_abort env fuel i rest acc tr e h,
   fun env fuel stack acc tr e trc h =>
     retrieveLoop_error_source env fuel stack acc tr e trc h,
   fun env fuel block_id e h => by
     have := retrieveLoop_abort env fuel block_id [] [] [] e h
     simpa [retrieve_all_blocks] using this⟩

/-- Witness for C6: the provider whose fetch for node 2 raises makes a
mid-traversal state abort, discarding the two blocks already collected,
and makes a run rooted at node 2 return the error string. -/
theorem flattener_error_returned_as_string_witness :
    exFailEnv 2 none = Except.error "APIResponseError: boom" ∧
    retrieveLoop exFailEnv 4 [2] [toBlock exC1, toBlock exC2] [⟨0, none⟩] =
      some (.errorString "APIResponseError: boom", [⟨0, none⟩, ⟨2, none⟩]) ∧
    retrieve_all_blocks exFailEnv 5 2 =
      some (.errorString "APIResponseError: boom", [⟨2, none⟩]) :=
  ⟨rfl,
   by
     have := flattener_error_returned_as_string.1 exFailEnv 3 2 []
       [toBlock exC1, toBlock exC2] [⟨0, none⟩] "APIResponseError: boom" rfl
     simpa using this,
   by
     have := flattener_error_returned_as_string.2.2 exFailEnv 4 2
       "APIResponseError: boom" rfl
     simpa using this⟩

/-- Inductive core of the calendar pagination claim: from page `k` onwards,
with fuel equal to the remaining page count, the loop appends exactly the
concatenation of the remaining pages. -/
theorem read_events_loop_pages
    (provider : Option String → CalendarEventsResponse)
    (tokSeq : Nat → Option String) (pages : List (List Item))
    (hitems : ∀ k < pages.length, (provider (tokSeq k)).items = pages.getD k [])
    (hnext : ∀ k < pages.length, k + 1 < pages.length →
      (provider (tokSeq k)).nextPageToken = tokSeq (k + 1) ∧
      pyFalsyStr (tokSeq (k + 1)) = false)
    (hlast : pyFalsyStr ((provider (tokSeq (pages.length - 1))).nextPageToken) = true) :
    ∀ (m k : Nat), m + k = pages.length → k < pages.length → ∀ acc,
      read_events_loop provider m (tokSeq k) acc =
        some (acc ++ (pages.drop k).flatten) := by
  intro m
  induction m with
  | zero =>
    intro k hmk hk acc
    omega
  | succ f ih =>
    intro k hmk hk acc
    have hdrop : pages.drop k = pages[k] :: pages.drop (k + 1) :=
      List.drop_eq_getElem_cons hk
    have hget : pages.getD k [] = pages[k] := List.getD_eq_getElem pages [] hk
    by_cases hk1 : k + 1 < pages.length
    · obtain ⟨htok, hfal⟩ := hnext k hk hk1
      simp only [read_events_loop, hitems k hk, htok, hfal, Bool.false_eq_true,
        if_false]
      rw [ih (k + 1) (by omega) hk1, hget, hdrop, List.flatten_cons,
        List.append_assoc]
    · have hke : k = pages.length - 1 := by omega
      have hfal : pyFalsyStr ((provider (tokSeq k)).nextPageToken) = true := by
        rw [hke]; exact hlast
      simp only [read_events_loop, hitems k hk, hfal, if_true]
      rw [hget, hdrop, List.drop_eq_nil_of_le (by omega : pages.length ≤ k + 1),
        List.flatten_cons]
      simp

/-- Inductive core of the database-query pagination claim. -/
theorem query_notion_database_loop_pages
    (provider : Option String → DatabaseQueryResponse)
    (curSeq : Nat → Option String) (pages : List (List Item))
    (hresults : ∀ k < pages.length, (provider (curSeq k)).results = pages.getD k [])
    (hnext : ∀ k < pages.length, k + 1 < pages.length →
      (provider (curSeq k)).next_cursor = curSeq (k + 1) ∧
      pyTruthyBool (provider (curSeq k)).has_more = true)
    (hlast : pyTruthyBool ((provider (curSeq (pages.length - 1))).has_more) = false) :
    ∀ (m k : Nat), m + k = pages.length → k < pages.length → ∀ acc,
      query_notion_database_loop provider m (curSeq k) acc =
        some (acc ++ (pages.drop k).flatten) := by
  intro m
  induction m with
  | zero =>
    intro k hmk hk acc
    omega
  | succ f ih =>
    intro k hmk hk acc
    have hdrop : pages.drop k = pages[k] :: pages.drop (k + 1) :=
      List.drop_eq_getElem_cons hk
    have hget : pages.getD k [] = pages[k] := List.getD_eq_getElem pages [] hk
    by_cases hk1 : k + 1 < pages.length
    · obtain ⟨hcur, hmore⟩ := hnext k hk hk1
      simp only [query_notion_database_loop, hresults k hk, hcur, hmore, if_true]
      rw [ih (k + 1) (by omega) hk1, hget, hdrop, List.flatten_cons,
        List.append_assoc]
    · have hke : k = pages.length - 1 := by omega
      have hfal : pyTruthyBool ((provider (curSeq k)).has_more) = false := by
        rw [hke]; exact hlast
      simp only [query_notion_database_loop, hresults k hk, hfal,
        Bool.false_eq_true, if_false]
      rw [hget, hdrop, List.drop_eq_nil_of_le (by omega : pages.length ≤ k + 1),
        List.flatten_cons]
      simp

/-- C2: for every provider that returns the pages of `pages` in order
through its cursor chain, with the final page signalling completion under
the respective convention, the Paginated Collector returns exactly the
concatenation of all the page item lists in page order (hence each item
exactly as often as the pages carry it): the calendar loop under the
next-token convention and the database-query loop under the has-more
convention. -/
theorem paginated_collector_concatenates_pages
    (pages : List (List Item)) (hne : pages ≠ []) :
    (∀ (provider : Option String → CalendarEventsResponse)
      (tokSeq : Nat → Option String),
      tokSeq 0 = none →
      (∀ k < pages.length, (provider (tokSeq k)).items = pages.getD k []) →
      (∀ k < pages.length, k + 1 < pages.length →
        (provider (tokSeq k)).nextPageToken = tokSeq (k + 1) ∧
        pyFalsyStr (tokSeq (k + 1)) = false) →
      pyFalsyStr ((provider (tokSeq (pages.length - 1))).nextPageToken) = true →
      read_events provider pages.length = some pages.flatten) ∧
    (∀ (provider : Option String → DatabaseQueryResponse)
      (curSeq : Nat → Option String),
      curSeq 0 = none →
      (∀ k < pages.length, (provider (curSeq k)).results = pages.getD k []) →
      (∀ k < pages.length, k + 1 < pages.length →
        (provider (curSeq k)).next_cursor = curSeq (k + 1) ∧
        pyTruthyBool (provider (curSeq k)).has_more = true) →
      pyTruthyBool ((provider (curSeq (pages.length - 1))).has_more) = false →
      query_notion_database provider pages.length = some pages.flatten) := by
  have hpos : 0 < pages.length := List.length_pos.mpr hne
  constructor
  · intro provider tokSeq h0 hitems hnext hlast
    have := read_events_loop_pages provider tokSeq pages hitems hnext hlast
      pages.length 0 (by omega) hpos []
    rw [h0] at this
    simpa [read_events] using this
  · intro provider curSeq h0 hresults hnext hlast
    have := query_notion_database_loop_pages provider curSeq pages hresults
      hnext hlast pages.length 0 (by omega) hpos []
    rw [h0] at this
    simpa [query_notion_database] using this

/-- Witness for C2 on the two-page stubs from the testable properties of
the spec: two calendar pages, and a database query answering
`has_more = true` then `has_more = false`. -/
theorem paginated_collector_concatenates_pages_witness :
    (([[1, 2], [3, 4]] : List (List Item)) ≠ [] ∧
      read_events twoPageCalProvider 2 = some [1, 2, 3, 4]) ∧
    (([[5, 6], [7]] : List (List Item)) ≠ [] ∧
      query_notion_database twoPageQueryProvider 2 = some [5, 6, 7]) :=
  ⟨⟨by decide,
    (paginated_collector_concatenates_pages [[1, 2], [3, 4]] (by decide)).1
      twoPageCalProvider twoPageCalTok rfl (by decide) (by decide) (by decide)⟩,
   ⟨by decide,
    (paginated_collector_concatenates_pages [[5, 6], [7]] (by decide)).2
      twoPageQueryProvider twoPageQueryCur rfl (by decide) (by decide) (by decide)⟩⟩

/-- C8: the pagination loops enforce no maximum page count.  For a
provider that never signals completion - every calendar response carries a
non-falsy next token, or every query response reports `has_more` true -
the collector has no terminating run: it returns `none` for every fuel
bound. -/
theorem paginated_collector_unbounded :
    (∀ (provider : Option String → CalendarEventsResponse),
      (∀ tok, pyFalsyStr (provider tok).nextPageToken = false) →
      ∀ (fuel : Nat) (tok : Option String) (acc : List Item),
        read_events_loop provider fuel tok acc = none) ∧
    (∀ (provider : Option String → DatabaseQueryResponse),
      (∀ cur, pyTruthyBool (provider cur).has_more = true) →
      ∀ (fuel : Nat) (cur : Option String) (acc : List Item),
        query_notion_database_loop provider fuel cur acc = none) := by
  constructor
  · intro provider h fuel
    induction fuel with
    | zero => intro tok acc; rfl
    | succ f ih =>
      intro tok acc
      simp only [read_events_loop, h tok, Bool.false_eq_true, if_false]
      exact ih _ _
  · intro provider h fuel
    induction fuel with
    | zero => intro cur acc; rfl
    | succ f ih =>
      intro cur acc
      simp only [query_notion_database_loop, h cur, if_true]
      exact ih _ _

/-- Witness for C8: the endless stub providers defeat any concrete fuel
bound. -/
theorem paginated_collector_unbounded_witness :
    (∀ tok, pyFalsyStr (endlessCalProvider tok).nextPageToken = false) ∧
    read_events_loop endlessCalProvider 1000 none [] = none ∧
    (∀ cur, pyTruthyBool (endlessQueryProvider cur).has_more = true) ∧
    query_notion_database_loop endlessQueryProvider 1000 none [] = none :=
  ⟨fun _ => rfl,
   paginated_collector_unbounded.1 endlessCalProvider (fun _ => rfl) 1000 none [],
   fun _ => rfl,
   paginated_collector_unbounded.2 endlessQueryProvider (fun _ => rfl) 1000 none []⟩

/-- Counterexample to C3 as stated: the calendar loop does not stop only
when the next-page cursor is absent.  On a response whose cursor is
present but equal to the empty string, the Python truthiness test
`if not page_token` stops the loop after the first page, even though the
cursor value is there. -/
theorem read_events_stops_on_present_empty_cursor :
    (emptyCursorProvider none).nextPageToken = some "" ∧
    (emptyCursorProvider none).nextPageToken ≠ none ∧
    read_events emptyCursorProvider 1 = some [7] := by
  refine ⟨rfl, by simp [emptyCursorProvider], ?_⟩
  rfl

/-- C3 (amended): the collectors stop exactly when the just-read
completion signal is falsy in the Python sense.  The calendar loop returns
right after a page exactly when that page carries a falsy
`nextPageToken` - absent or the empty string - and otherwise continues
with that token; the database-query loop returns right after a page
exactly when its `has_more` is not `True` - explicit false or absent - and
otherwise continues with the page cursor. -/
theorem paginated_collector_stop_conditions :
    (∀ t : Option String, pyFalsyStr t = true ↔ t = none ∨ t = some "") ∧
    (∀ h : Option Bool, pyTruthyBool h = false ↔ h = none ∨ h = some false) ∧
    (∀ (provider : Option String → CalendarEventsResponse) (fuel : Nat)
      (tok : Option String) (acc : List Item),
      (pyFalsyStr (provider tok).nextPageToken = true →
        read_events_loop provider (fuel + 1) tok acc =
          some (acc ++ (provider tok).items)) ∧
      (pyFalsyStr (provider tok).nextPageToken = false →
        read_events_loop provider (fuel + 1) tok acc =
          read_events_loop provider fuel ((provider tok).nextPageToken)
            (acc ++ (provider tok).items))) ∧
    (∀ (provider : Option String → DatabaseQueryResponse) (fuel : Nat)
      (cur : Option String) (acc : List Item),
      (pyTruthyBool (provider cur).has_more = false →
        query_notion_database_loop provider (fuel + 1) cur acc =
          some (acc ++ (provider cur).results)) ∧
      (pyTruthyBool (provider cur).has_more = true →
        query_notion_database_loop provider (fuel + 1) cur acc =
          query_notion_database_loop provider fuel ((provider cur).next_cursor)
            (acc ++ (provider cur).results))) := by
  refine ⟨?_, ?_, ?_, ?_⟩
  · intro t
    cases t with
    | none => simp [pyFalsyStr]
    | some s => simp [pyFalsyStr, String.isEmpty_iff s]
  · intro h
    cases h with
    | none => simp [pyTruthyBool]
    | some b => cases b <;> simp [pyTruthyBool]
  · intro provider fuel tok acc
    constructor
    · intro h
      simp [read_events_loop, h]
    · intro h
      simp [read_events_loop, h]
  · intro provider fuel cur acc
    constructor
    · intro h
      simp [query_notion_database_loop, h]
    · intro h
      simp [query_notion_database_loop, h]

/-- Witness for the amended C3: a falsy last page stops the two-page
calendar stub after its second call, and the endless query stub with
`has_more = True` makes the loop continue. -/
theorem paginated_collector_stop_conditions_witness :
    (pyFalsyStr (twoPageCalProvider (some "c")).nextPageToken = true ∧
      read_events_loop twoPageCalProvider 1 (some "c") [1, 2] = some [1, 2, 3, 4]) ∧
    (pyTruthyBool (endlessQueryProvider none).has_more = true ∧
      query_notion_database_loop endlessQueryProvider 1 none [] =
        query_notion_database_loop endlessQueryProvider 0 (some "t") [2]) :=
  ⟨⟨rfl, (paginated_collector_stop_conditions.2.2.1 twoPageCalProvider 0
      (some "c") [1, 2]).1 rfl⟩,
   ⟨rfl, (paginated_collector_stop_conditions.2.2.2 endlessQueryProvider 0
      none []).2 rfl⟩⟩

/-- C4: the Text Extractor is a pure function whose output is the in-order
concatenation of per-block contributions: recognised text-bearing types
contribute the separator-free concatenation of their span texts, the three
heading levels wrap it in the bold marker, a nested-page reference
contributes its title or the empty string, any other type contributes
nothing, and the order of contributions follows the input order with no
reordering and no deduplication.  The closed conjuncts check the spec
examples, including both title cases of a child page. -/
theorem extract_text_matches_spec :
    (∀ blocks : List Block,
      extract_text_from_blocks blocks = blocks.flatMap specBlockText) ∧
    extract_text_from_blocks
      [⟨10, false, "heading_1", [⟨"Hello"⟩, ⟨" World"⟩], none⟩] = ["**Hello World**"] ∧
    extract_text_from_blocks [⟨11, false, "paragraph", [⟨"a"⟩, ⟨"b"⟩], none⟩] = ["ab"] ∧
    extract_text_from_blocks [⟨12, false, "unsupported_type", [⟨"x"⟩], none⟩] = [] ∧
    extract_text_from_blocks [⟨13, false, "child_page", [], some "T"⟩] = ["T"] ∧
    extract_text_from_blocks [⟨14, false, "child_page", [], none⟩] = [""] := by
  refine ⟨?_, by rfl, by rfl, by rfl, by rfl, by rfl⟩
  intro blocks
  induction blocks with
  | nil => rfl
  | cons b rest ih =>
    rw [List.flatMap_cons, ← ih]
    by_cases ht : b.type ∈ textBlockTypes
    · by_cases hh : b.type ∈ headingBlockTypes
      · simp [extract_text_from_blocks, specBlockText, ht, hh]
      · simp [extract_text_from_blocks, specBlockText, ht, hh]
    · have hh : b.type ∉ headingBlockTypes := by
        intro hmem
        apply ht
        simp [headingBlockTypes] at hmem
        rcases hmem with h | h | h <;> simp [textBlockTypes, h]
      by_cases hc : b.type = "child_page"
      · simp [extract_text_from_blocks, specBlockText, ht, hh, hc,
          textBlockTypes, headingBlockTypes]
      · simp [extract_text_from_blocks, specBlockText, ht, hh, hc]

/-- C7: a create-event request in which any of `summary`, `start_time`,
`end_time` is missing is rejected with a 400 client error before the
handler reaches the upstream insert call, and a delete request with no
`event_id` yields a 400 - a 4xx status, not a 5xx. -/
theorem handlers_reject_missing_fields
    (d : CreateEventRequest) (calendar_id : Option String) :
    ((d.summary = none ∨ d.start_time = none ∨ d.end_time = none) →
      create_event d = .clientError 400 "Missing required event fields.") ∧
    (delete_event calendar_id none = .clientError 400 "Event ID is required.") ∧
    (∀ status message, delete_event calendar_id none = .clientError status message →
      400 ≤ status ∧ status < 500) := by
  refine ⟨?_, ?_, ?_⟩
  · intro h
    rcases h with h | h | h <;> simp [create_event, pyTruthyStr, h]
  · rfl
  · intro status message h
    have : (CalendarAction.clientError 400 "Event ID is required.") =
        CalendarAction.clientError status message := by
      rw [← h]; rfl
    cases this
    omega

/-- Witness for C7: a request carrying only a summary is rejected, and the
missing-id delete yields 400, which is in the 4xx range. -/
theorem handlers_reject_missing_fields_witness :
    create_event ⟨none, some "only summary", none, none, none, []⟩ =
      .clientError 400 "Missing required event fields." ∧
    delete_event none none = .clientError 400 "Event ID is required." ∧
    (400 ≤ 400 ∧ (400 : Nat) < 500) :=
  ⟨(handlers_reject_missing_fields ⟨none, some "only summary", none, none, none, []⟩
      none).1 (Or.inr (Or.inl rfl)),
   (handlers_reject_missing_fields ⟨none, some "only summary", none, none, none, []⟩
      none).2.1,
   (handlers_reject_missing_fields ⟨none, some "only summary", none, none, none, []⟩
      none).2.2 400 "Event ID is required." rfl⟩

/-- Looking up a key other than the one just set reads the old dictionary. -/
theorem dictSet_lookup_ne (d : PyDict) (key k : String) (v : PyVal)
    (h : k ≠ key) : dictSet d key v k = d k := by
  simp [dictSet, h]

/-- C9: the edit-event handler overwrites only the five known fields -
`summary`, `description`, `start`, `end`, `attendees` - each exactly when
the request carries a non-null value for it, and every other key of the
fetched event record passes through to the update body unchanged. -/
theorem edit_event_overwrites_only_known_fields
    (event : PyDict) (d : EditEventRequest) :
    (∀ k, k ∉ (["summary", "description", "start", "end", "attendees"] : List String) →
      edit_event_body event d k = event k) ∧
    (d.summary = none → edit_event_body event d "summary" = event "summary") ∧
    (∀ s, d.summary = some s → edit_event_body event d "summary" = some (.vStr s)) ∧
    (d.description = none →
      edit_event_body event d "description" = event "description") ∧
    (∀ s, d.description = some s →
      edit_event_body event d "description" = some (.vStr s)) ∧
    (d.start_time = none → edit_event_body event d "start" = event "start") ∧
    (∀ s, d.start_time = some s →
      edit_event_body event d "start" = some (.vDateTime s)) ∧
    (d.end_time = none → edit_event_body event d "end" = event "end") ∧
    (∀ s, d.end_time = some s →
      edit_event_body event d "end" = some (.vDateTime s)) ∧
    (d.attendees = none → edit_event_body event d "attendees" = event "attendees") ∧
    (∀ l, d.attendees = some l →
      edit_event_body event d "attendees" = some (.vEmails l)) := by
  obtain ⟨cal, eid, s0, de, st, et, at0⟩ := d
  rcases s0 with _ | s0 <;> rcases de with _ | de <;> rcases st with _ | st <;>
    rcases et with _ | et <;> rcases at0 with _ | at0 <;>
    refine ⟨?_, ?_, ?_, ?_, ?_, ?_, ?_, ?_, ?_, ?_, ?_⟩ <;>
    simp [edit_event_body, dictSet] <;>
    (intro k h1 h2 h3 h4 h5; simp [h1, h2, h3, h4, h5])

/-- Witness for C9 on a concrete fetched record and a request changing the
summary and end time only: the unknown `colorId` field and the untouched
`description` field pass through, the summary is overwritten, the end time
is written. -/
theorem edit_event_overwrites_only_known_fields_witness :
    edit_event_body exFetchedEvent exEditRequest "colorId" = exFetchedEvent "colorId" ∧
    edit_event_body exFetchedEvent exEditRequest "description" =
      exFetchedEvent "description" ∧
    edit_event_body exFetchedEvent exEditRequest "summary" =
      some (.vStr "new summary") ∧
    edit_event_body exFetchedEvent exEditRequest "end" =
      some (.vDateTime "2024-01-01T10:00:00") :=
  ⟨(edit_event_overwrites_only_known_fields exFetchedEvent exEditRequest).1
      "colorId" (by simp),
   (edit_event_overwrites_only_known_fields exFetchedEvent exEditRequest).2.2.2.1 rfl,
   (edit_event_overwrites_only_known_fields exFetchedEvent exEditRequest).2.2.1
      "new summary" rfl,
   (edit_event_overwrites_only_known_fields exFetchedEvent
      exEditRequest).2.2.2.2.2.2.2.2.1 "2024-01-01T10:00:00" rfl⟩
